import Mathlib

/-!
Shallow embedding of `virginmedia.py` (Virgin Media Hub 3 client) and proofs
about its retry layer, session management, SNMP operations and value codec.

Python strings are modelled as Lean `String` (operated on through their
character list), Python `None`-able values as `Option`, raised exceptions as
`Option`/result sums, and the HTTP world as an explicit script of responses.
-/

namespace VirginMedia

/-! ### Pythonic string primitives

Python strings are modelled through their character lists.  `str.split` on a
one-character separator, `str.join`, `int(s)` and `int(s, base=16)` are
translated directly; the `int` conversions return `none` where Python raises
`ValueError` (sign/whitespace forms, which the router never produces, are out
of scope and also map to `none`). -/

/-- `s.split(sep)` for a single-character separator: splitting the empty
string yields `[""]`, and every occurrence of the separator splits. -/
def pySplit (sep : Char) : List Char → List (List Char)
  | [] => [[]]
  | c :: cs =>
    if c = sep then [] :: pySplit sep cs
    else
      match pySplit sep cs with
      | [] => [[c]]
      | g :: gs => (c :: g) :: gs

/-- `sep.join(parts)` for a single-character separator. -/
def pyJoin (sep : Char) : List (List Char) → List Char
  | [] => []
  | [p] => p
  | p :: ps => p ++ sep :: pyJoin sep ps

/-- `int(s)` on a plain digit string; `none` where Python raises. -/
def pyIntDec (cs : List Char) : Option Nat :=
  if cs = [] then none
  else if cs.all (fun c => c.isDigit) then
    some (cs.foldl (fun acc c => acc * 10 + (c.toNat - 48)) 0)
  else none

/-- Value of one hexadecimal digit (either case); `none` otherwise. -/
def hexDigitVal (c : Char) : Option Nat :=
  if '0' ≤ c ∧ c ≤ '9' then some (c.toNat - 48)
  else if 'a' ≤ c ∧ c ≤ 'f' then some (c.toNat - 87)
  else if 'A' ≤ c ∧ c ≤ 'F' then some (c.toNat - 55)
  else none

/-- `int(s, base=16)`; `none` where Python raises. -/
def pyIntHex (cs : List Char) : Option Nat :=
  if cs = [] then none
  else (cs.mapM hexDigitVal).map (List.foldl (fun acc d => acc * 16 + d) 0)

/-- `str(n)` for a natural number. -/
def decDigits (n : Nat) : List Char := Nat.toDigits 10 n

/-- `hex(n)[2:]`: lowercase hexadecimal digits, no prefix. -/
def hexDigitsLower (n : Nat) : List Char := Nat.toDigits 16 n

/-- The `"{0:0>2s}"` format: right-align within width 2, filling with `'0'`. -/
def padLeftZero2 (cs : List Char) : List Char :=
  List.replicate (2 - cs.length) '0' ++ cs

/-! ### Value codec (`extract_ip`, `ipv4_to_dollar`, `extract_mac`,
`extract_date`) -/

/-- `extract_ip(hexvalue, zero_is_none)` (lines 66-78): reads four octets
from `hexvalue[1:3]`, `[3:5]`, `[5:7]`, `[7:9]` (base 16), joins their
decimal renderings with dots, and maps the resulting `"0.0.0.0"` to `None`
when `zero_is_none`.  Outer `none` = a `ValueError` escaping from `int`;
inner `none` = Python `None`. -/
def extract_ip (hexvalue : String) (zero_is_none : Bool) :
    Option (Option String) :=
  let cs := hexvalue.toList
  match pyIntHex ((cs.drop 1).take 2), pyIntHex ((cs.drop 3).take 2),
      pyIntHex ((cs.drop 5).take 2), pyIntHex ((cs.drop 7).take 2) with
  | some o1, some o2, some o3, some o4 =>
      let ipaddr := String.mk (decDigits o1 ++ '.' :: decDigits o2 ++
        '.' :: decDigits o3 ++ '.' :: decDigits o4)
      if ipaddr = "0.0.0.0" ∧ zero_is_none then some none
      else some (some ipaddr)
  | _, _, _, _ => none

/-- The inner `tohex` of `ipv4_to_dollar`: `"{0:0>2s}".format(hex(int(d))[2:].lower())`. -/
def tohex (decimal : List Char) : Option (List Char) :=
  (pyIntDec decimal).map (fun n => padLeftZero2 (hexDigitsLower n))

/-- `map(tohex, parts)` with the `ValueError` of a failing `int` conversion
propagated. -/
def mapTohex : List (List Char) → Option (List (List Char))
  | [] => some []
  | p :: ps =>
    match tohex p, mapTohex ps with
    | some h, some hs => some (h :: hs)
    | _, _ => none

/-- `ipv4_to_dollar(address)` (lines 80-88): `"$" + ''.join(map(tohex,
address.split('.')))`; `none` when `int` raises on some component. -/
def ipv4_to_dollar (address : String) : Option String :=
  (mapTohex (pySplit '.' address.toList)).map
    (fun parts => String.mk ('$' :: parts.flatten))

/-- `extract_mac(mac)` (lines 115-126): `mac[1:3]` followed by
`':' + mac[idx:idx+2]` for `idx = 3, 5, 7, 9, 11`. -/
def extract_mac (mac : String) : String :=
  let cs := mac.toList
  String.mk ((cs.drop 1).take 2 ++
    ':' :: (cs.drop 3).take 2 ++ ':' :: (cs.drop 5).take 2 ++
    ':' :: (cs.drop 7).take 2 ++ ':' :: (cs.drop 9).take 2 ++
    ':' :: (cs.drop 11).take 2)

/-- A value accepted by Python's `datetime.datetime` constructor. -/
structure PyDatetime where
  year : Nat
  month : Nat
  day : Nat
  hour : Nat
  minute : Nat
  second : Nat
deriving DecidableEq, Repr

/-- Gregorian leap-year rule, as used by `datetime`. -/
def isLeapYear (y : Nat) : Bool :=
  decide ((y % 4 = 0 ∧ y % 100 ≠ 0) ∨ y % 400 = 0)

/-- Number of days in a month of a given year. -/
def daysInMonth (y m : Nat) : Nat :=
  if m = 2 then (if isLeapYear y then 29 else 28)
  else if m = 4 ∨ m = 6 ∨ m = 9 ∨ m = 11 then 30
  else 31

/-- `datetime.datetime(year, month, day, hour, minute, second)`: `none`
models the `ValueError` raised on out-of-range fields (`MINYEAR = 1`,
`MAXYEAR = 9999`). -/
def mkDatetime (y mo d h mi s : Nat) : Option PyDatetime :=
  if 1 ≤ y ∧ y ≤ 9999 ∧ 1 ≤ mo ∧ mo ≤ 12 ∧ 1 ≤ d ∧ d ≤ daysInMonth y mo ∧
      h ≤ 23 ∧ mi ≤ 59 ∧ s ≤ 59 then
    some ⟨y, mo, d, h, mi, s⟩
  else none

/-- The calendar-validity invariant guaranteed by `datetime.datetime`. -/
def ValidDate (dt : PyDatetime) : Prop :=
  1 ≤ dt.year ∧ dt.year ≤ 9999 ∧ 1 ≤ dt.month ∧ dt.month ≤ 12 ∧
  1 ≤ dt.day ∧ dt.day ≤ daysInMonth dt.year dt.month ∧
  dt.hour ≤ 23 ∧ dt.minute ≤ 59 ∧ dt.second ≤ 59

/-- `extract_date(vmdate)` (lines 128-150): `None`, `""` and the zero
pattern decode to `None`; otherwise hexadecimal fields
year/month/day/hour/minute/second are read from fixed slices and fed to the
`datetime` constructor.  Outer `none` = an exception escaping. -/
def extract_date (vmdate : Option String) : Option (Option PyDatetime) :=
  match vmdate with
  | none => some none
  | some s =>
    if s = "" ∨ s = "$0000000000000000" then some none
    else
      let cs := s.toList
      match pyIntHex ((cs.drop 1).take 4), pyIntHex ((cs.drop 5).take 2),
          pyIntHex ((cs.drop 7).take 2), pyIntHex ((cs.drop 9).take 2),
          pyIntHex ((cs.drop 11).take 2), pyIntHex ((cs.drop 13).take 2) with
      | some y, some mo, some d, some h, some mi, some sec =>
          (mkDatetime y mo d h mi sec).map some
      | _, _, _, _, _, _ => none

/-- A valid dotted-quad IPv4 address: four canonically-rendered decimal
octets, each below 256, joined by dots. -/
def ValidIPv4 (a : String) : Prop :=
  ∃ n1 n2 n3 n4 : Nat,
    n1 < 256 ∧ n2 < 256 ∧ n3 < 256 ∧ n4 < 256 ∧
    a.toList = decDigits n1 ++ '.' :: decDigits n2 ++
      '.' :: decDigits n3 ++ '.' :: decDigits n4

/-! ### `snmp_walk` response filtering -/

/-- The spurious diagnostic line the hub firmware injects into walk
responses. -/
def oidFormatErrorLine : String := "Error in OID formatting!"

/-- The list comprehension of line 699: keep exactly the lines of the
response that are not whole-line equal to the spurious error string. -/
def walkFilterLines (cs : List Char) : List (List Char) :=
  (pySplit '\n' cs).filter (fun x => x ≠ oidFormatErrorLine.toList)

/-- Line 699 in full: split the raw response on newlines, drop offending
lines, rejoin with newlines. -/
def walkFilterText (jsondata : String) : String :=
  String.mk (pyJoin '\n' (walkFilterLines jsondata.toList))

/-- Lines 705-706: drop the top-level key `"1"` when (and only when) its
value is the literal `"Finish"`.  The parsed JSON object is modelled as an
insertion-ordered association list, as a Python dict is. -/
def stripFinishSentinel (result : List (String × String)) :
    List (String × String) :=
  if result.lookup "1" = some "Finish" then
    result.eraseP (fun e => e.1 = "1")
  else result

/-- `Hub.snmp_walk` (lines 680-707) with the HTTP transport and
`json.loads` abstracted: `parse` stands for `json.loads` (`none` = raises)
and `raw` is the text of the walk response. -/
def snmp_walk (parse : String → Option (List (String × String)))
    (raw : String) : Option (List (String × String)) :=
  (parse (walkFilterText raw)).map stripFinishSentinel

/-! ### `snmp_table` assembly -/

/-- `col_num(walked_oid)` (line 309-310): the path segment right after
`top_oid`: `walked_oid[len(top_oid)+1:].split('.')[0]`. -/
def col_num (top oid : String) : String :=
  String.mk ((pySplit '.' (oid.toList.drop (top.toList.length + 1))).headD [])

/-- `row_num(walked_oid)` (line 312-313):
`int(walked_oid[len(top_oid)+1:].split('.')[1])`; `none` models the
`IndexError`/`ValueError` raised on malformed OIDs. -/
def row_num (top oid : String) : Option Nat :=
  ((pySplit '.' (oid.toList.drop (top.toList.length + 1)))[1]?).bind pyIntDec

/-- Python string `<` (lexicographic by code point). -/
def pyStrLt : List Char → List Char → Bool
  | [], [] => false
  | [], _ :: _ => true
  | _ :: _, [] => false
  | a :: as, b :: bs =>
    if a.toNat < b.toNat then true
    else if b.toNat < a.toNat then false
    else pyStrLt as bs

/-- An entry of the filtered walk annotated for sorting:
`(row_num, col_num, oid, value)`. -/
abbrev TableEntry : Type := Nat × String × String × String

/-- Python tuple comparison `(row_num, col_num) <= (row_num', col_num')`
used as sort key (line 324). -/
def entryLe (a b : TableEntry) : Bool :=
  a.1 < b.1 || (a.1 == b.1 && !(pyStrLt b.2.1.toList a.2.1.toList))

/-- Insert into a sorted list, before the first element it compares `le`
to — the insertion step of a stable sort. -/
def insertSorted (le : α → α → Bool) (x : α) : List α → List α
  | [] => [x]
  | y :: ys => if le x y then x :: y :: ys else y :: insertSorted le x ys

/-- Stable sort (`list.sort` is stable in Python; insertion sort keeps
equal-keyed elements in input order). -/
def sortStable (le : α → α → Bool) : List α → List α
  | [] => []
  | x :: xs => insertSorted le x (sortStable le xs)

/-- `itertools.groupby`: maximal runs of consecutive elements sharing a
key, with the key attached to each run. -/
def groupRuns (key : α → Nat) : List α → List (Nat × List α)
  | [] => []
  | x :: xs =>
    match groupRuns key xs with
    | [] => [(key x, [x])]
    | (k, g) :: rest =>
      if key x = k then (k, x :: g) :: rest
      else (key x, [x]) :: (k, g) :: rest

/-- Python dict insertion: overwrite in place when the key exists (keeping
its position), else append. -/
def dictInsert (m : List (String × String)) (k v : String) :
    List (String × String) :=
  if (m.lookup k).isSome then
    m.map (fun e => if e.1 = k then (k, v) else e)
  else m ++ [(k, v)]

/-- The dict comprehension of lines 329-330: map each surviving entry of a
row group to `columns[col_num]: value` (later duplicates overwrite).  The
missing-column default of the `SNMPRow` namedtuple is modelled by `lookup`
returning `none` on the assembled cells. -/
def buildCells (columns : List (String × String)) (g : List TableEntry) :
    List (String × String) :=
  g.foldl (fun m e => dictInsert m ((columns.lookup e.2.1).getD "") e.2.2.2) []

/-- The `snmp_table` decorator body (lines 319-334): filter the walk result
to entries whose column segment is a key of `columns`, sort by
`(row_num, col_num)`, group consecutive entries by row number, and build
one row `(row_idx, cells)` per group.  `none` models the exception raised
when a surviving OID has no parseable row segment. -/
def snmp_table_rows (top : String) (columns : List (String × String))
    (walk : List (String × String)) :
    Option (List (Nat × List (String × String))) :=
  match (walk.filter (fun e => (columns.lookup (col_num top e.1)).isSome)).mapM
      (fun e => (row_num top e.1).map (fun r => ((r, col_num top e.1, e.1, e.2) : TableEntry))) with
  | none => none
  | some annotated =>
      some ((groupRuns (fun e => e.1) (sortStable entryLe annotated)).map
        (fun g => (g.1, buildCells columns g.2)))

/-- Outcome of `Hub._get`: the returned response status, or the exception that
escaped (`requests.raise_for_status` raising `HTTPError`, or `AccessDenied`). -/
inductive GetResult where
  | ok (status : Nat)
  | httpError (status : Nat)
  | accessDenied
  | outOfScript
deriving DecidableEq, Repr

/-- `requests.Response.raise_for_status` raises for 4xx and 5xx statuses. -/
def raisesForStatus (status : Nat) : Bool :=
  decide (400 ≤ status ∧ status < 600)

/-- The `while True` loop of `Hub._get` (`virginmedia.py` lines 466-497),
run against a script of response statuses.  State mirrors the Python locals:
`retry401`, `retry500` (arbitrary integers, decremented on the way), `sleep`
(the current backoff interval, starting at 1 and doubled after each sleep).
`loggedin` models `self.is_loggedin`; a re-login is assumed to succeed and
keep the credential, which the accumulator `relogins` counts; `sleeps`
accumulates the durations passed to `time.sleep`.  Returns the response the
loop breaks on together with the accumulated effects, or `none` when the
script runs dry (the real code would block on the network). -/
def getLoop : List Nat → Int → Int → Nat → Nat → List Nat → Bool →
    Option (Nat × Nat × List Nat)
  | [], _, _, _, _, _, _ => none
  | status :: rest, retry401, retry500, sleep, relogins, sleeps, loggedin =>
    if status = 401 ∧ retry401 - 1 > 0 ∧ loggedin = true then
      -- re-run login with the stored username/password, then `continue`
      getLoop rest (retry401 - 1) retry500 sleep (relogins + 1) sleeps loggedin
    else if status = 500 ∧ retry500 - 1 > 0 then
      -- `time.sleep(sleep); sleep *= 2`, then `continue`
      getLoop rest retry401 (retry500 - 1) (sleep * 2) relogins
        (sleeps ++ [sleep]) loggedin
    else
      some (status, relogins, sleeps)

/-- After the loop breaks: `resp.raise_for_status()` and then the (dead for
4xx) `raise AccessDenied(url)` check of lines 498-501. -/
def finishGet (status : Nat) : GetResult :=
  if raisesForStatus status then .httpError status
  else if status = 401 then .accessDenied
  else .ok status

/-- `Hub._get(url, retry401=5, retry500=3)` against a response script:
result together with the number of re-logins performed and the list of
backoff sleep durations, in order. -/
def hubGet (script : List Nat) (retry401 retry500 : Int) (loggedin : Bool) :
    GetResult × Nat × List Nat :=
  match getLoop script retry401 retry500 1 0 [] loggedin with
  | none => (.outOfScript, 0, [])
  | some (status, relogins, sleeps) => (finishGet status, relogins, sleeps)

/-- The mutable session state of a `Hub` instance (`Hub.__init__`): the
fields touched by `login`, `logout`, `snmp_set` and `apply_settings`.
(The base URL, nonce and statistics counters are fixed or write-only
bookkeeping and play no part in the claims.) -/
structure HubState where
  credential : Option String
  username : Option String
  password : Option String
  modelname : Option String
  family : Option String
  unapplied_settings : Bool
deriving DecidableEq, Repr

/-- `Hub.is_loggedin`: `self._credential is not None`. -/
def is_loggedin (s : HubState) : Bool :=
  s.credential.isSome

/-- `Hub.login(username, password)` (lines 511-558), with the HTTP exchange
made explicit: `respContent` and `respText` are the body and text of the
login response, and `decode` models `json.loads(base64.b64decode(·))`,
returning the envelope as a key/value list or `none` when it raises.
Result: `(succeeded, final state)`; on failure the state is the state at the
moment the `LoginFailed` exception escapes.  An empty body raises before any
field is assigned; a decode failure likewise; only on success are
credential, username, password, modelname and family assigned (lines
554-558). -/
def login (s : HubState) (username password : String)
    (respContent respText : String)
    (decode : String → Option (List (String × String))) : Bool × HubState :=
  if respContent = "" then
    (false, s)                       -- raise LoginFailed (empty body)
  else
    match decode respContent with
    | none => (false, s)             -- raise LoginFailed (bad envelope)
    | some attrs =>
        -- the `gwWan`/`conType`/`muti` inspection only emits warnings
        (true, { s with
                   credential := some respText,
                   username := some username,
                   password := some password,
                   modelname := (attrs.lookup "modelname"),
                   family := (attrs.lookup "family") })

/-- `Hub.logout()` (lines 576-584).  `requestRaises` says whether the
`_get('logout', retry401=0, ...)` call raises; the `finally` block clears
credential, username and password either way.  Result: `(raised, final
state)`. -/
def logout (s : HubState) (requestRaises : Bool) : Bool × HubState :=
  if is_loggedin s then
    (requestRaises,
      { s with credential := none, username := none, password := none })
  else
    (false, s)

/-- `Hub.snmp_set` response handling (lines 645-654), with the response of
the `snmpSet` endpoint given as its status and the key set of its JSON body.
`raise_for_status` raises for 4xx/5xx; a body missing the OID raises
`SNMPSetError`; HTTP 304 returns `False` without touching
`_unapplied_settings`; any other success sets the flag and returns `True`.
Result: `(some returnValue | none when an exception escapes, final state)`. -/
def snmp_set (s : HubState) (oid : String) (respStatus : Nat)
    (respKeys : List String) : Option Bool × HubState :=
  if raisesForStatus respStatus then
    (none, s)                        -- resp.raise_for_status()
  else if ¬ (oid ∈ respKeys) then
    (none, s)                        -- raise SNMPSetError(self, oid, resp.text)
  else if respStatus = 304 then
    (some false, s)
  else
    (some true, { s with unapplied_settings := true })

/-- The OID written by `Hub.apply_settings` to commit pending changes. -/
def applySettingsOid : String := "1.3.6.1.4.1.4115.1.20.1.1.9.0"

/-- `Hub.apply_settings()` (lines 656-661): returns immediately when no
settings are pending; otherwise issues one `snmp_set` on the commit OID
(response given as status/keys) and clears the pending flag.  Result:
`(some requestIssued | none when the inner set raises, final state)`. -/
def apply_settings (s : HubState) (respStatus : Nat) (respKeys : List String) :
    Option Bool × HubState :=
  if s.unapplied_settings = false then
    (some false, s)
  else
    match snmp_set s applySettingsOid respStatus respKeys with
    | (none, s') => (none, s')
    | (some _, s') => (some true, { s' with unapplied_settings := false })

/-- C1 counterexample: with the default budget `retry401=5`, a credential held
throughout, and every response 401, the code performs only 4 re-logins (the
decrement precedes the `> 0` test) and the failure surfacing on the fifth 401
is the `HTTPError` from `raise_for_status`, not `AccessDenied` — the
`raise AccessDenied(url)` line is unreachable for a 4xx status.  In
particular the claimed "5 re-logins then AccessDenied on the sixth 401" is
false. -/
theorem c1_counterexample :
    hubGet [401, 401, 401, 401, 401, 401] 5 3 true = (.httpError 401, 4, []) ∧
    (hubGet [401, 401, 401, 401, 401, 401] 5 3 true).1 ≠ .accessDenied ∧
    (hubGet [401, 401, 401, 401, 401, 401] 5 3 true).2.1 ≠ 5 := by
  decide

/-- C1 (amended): for an authenticated GET whose every attempt returns 401,
with the default 401-retry budget of 5 and a credential held throughout, the
request layer re-runs login exactly 4 times and then surfaces the underlying
HTTP error (`HTTPError` from `raise_for_status`, not `AccessDenied`) on the
fifth 401 response; no later response is consumed. -/
theorem c1_get_401_budget5_four_relogins (rest : List Nat) :
    hubGet (401 :: 401 :: 401 :: 401 :: 401 :: rest) 5 3 true =
      (.httpError 401, 4, []) := by
  rfl

/-- C2: responses 500, 500, 200 with the default 500-retry budget of 3 yield
the 200 result after exactly two backoff sleeps of durations 1 then 2 (the
interval starts at 1 and doubles after each sleep, so the durations strictly
increase); and if every response within the budget is 500, the underlying
HTTP failure (`HTTPError` for the 500) is surfaced after the same two
sleeps. -/
theorem c2_get_500_backoff :
    (hubGet [500, 500, 200] 5 3 true = (.ok 200, 0, [1, 2]) ∧
      List.Pairwise (· < ·) (hubGet [500, 500, 200] 5 3 true).2.2 ∧
      (hubGet [500, 500, 200] 5 3 true).2.2.length = 2) ∧
    ∀ rest : List Nat,
      hubGet (500 :: 500 :: 500 :: rest) 5 3 true = (.httpError 500, 0, [1, 2]) := by
  exact ⟨by decide, fun rest => rfl⟩

/-- C3: `logout()` is a no-op when no credential is held; otherwise it issues
the logout request and, whether or not that request raises, clears the
credential token, username and password; in every case the session is not
logged in once `logout` returns or raises. -/
theorem c3_logout_clears (s : HubState) (requestRaises : Bool) :
    (is_loggedin s = false → logout s requestRaises = (false, s)) ∧
    (is_loggedin s = true →
      (logout s requestRaises).2.credential = none ∧
      (logout s requestRaises).2.username = none ∧
      (logout s requestRaises).2.password = none ∧
      (logout s requestRaises).1 = requestRaises) ∧
    is_loggedin (logout s requestRaises).2 = false := by
  unfold logout is_loggedin
  cases h : s.credential <;> simp_all [Option.isSome]

/-- C3 witness: a logged-in session whose logout request raises still ends
up logged out with all three fields cleared. -/
theorem c3_logout_clears_witness :
    is_loggedin ⟨some "tok", some "admin", some "pw", none, none, false⟩ = true ∧
    (logout ⟨some "tok", some "admin", some "pw", none, none, false⟩ true).2.credential
      = none := by
  refine ⟨by decide, ?_⟩
  exact ((c3_logout_clears
    ⟨some "tok", some "admin", some "pw", none, none, false⟩ true).2.1
    (by decide)).1

/-- C7: a 304 response (whose body contains the OID) makes `snmp_set` return
`false` with the state — hence the pending flag — unchanged; any other
non-error response containing the OID makes it return `true` and sets the
pending flag; `apply_settings` performs no request when nothing is pending,
and otherwise issues the commit set and finishes with the flag cleared. -/
theorem c7_snmp_set_apply (s : HubState) (oid : String) (respStatus : Nat)
    (respKeys : List String) :
    (oid ∈ respKeys → snmp_set s oid 304 respKeys = (some false, s)) ∧
    (oid ∈ respKeys → raisesForStatus respStatus = false → respStatus ≠ 304 →
      snmp_set s oid respStatus respKeys =
        (some true, { s with unapplied_settings := true })) ∧
    (s.unapplied_settings = false →
      apply_settings s respStatus respKeys = (some false, s)) ∧
    (s.unapplied_settings = true → applySettingsOid ∈ respKeys →
      raisesForStatus respStatus = false →
      (apply_settings s respStatus respKeys).1 = some true ∧
      (apply_settings s respStatus respKeys).2.unapplied_settings = false) := by
  refine ⟨fun hk => ?_, fun hk hok h304 => ?_, fun hp => ?_, fun hp hk hok => ?_⟩
  · simp [snmp_set, raisesForStatus, hk]
  · simp [snmp_set, hok, hk, h304]
  · simp [apply_settings, hp]
  · have hok' : ¬ (400 ≤ respStatus ∧ respStatus < 600) := by
      simpa [raisesForStatus] using hok
    by_cases h304 : respStatus = 304 <;>
      simp [apply_settings, hp, snmp_set, hok', hk, h304, raisesForStatus]

/-- C7 witness: concrete 304 and 200 responses for a set, and a commit at a
pending and a non-pending session. -/
theorem c7_snmp_set_apply_witness :
    snmp_set ⟨some "t", none, none, none, none, false⟩ "1.2" 304 ["1.2"] =
      (some false, ⟨some "t", none, none, none, none, false⟩) ∧
    snmp_set ⟨some "t", none, none, none, none, false⟩ "1.2" 200 ["1.2"] =
      (some true, ⟨some "t", none, none, none, none, true⟩) ∧
    apply_settings ⟨some "t", none, none, none, none, false⟩ 200 [applySettingsOid] =
      (some false, ⟨some "t", none, none, none, none, false⟩) ∧
    (apply_settings ⟨some "t", none, none, none, none, true⟩ 200
        [applySettingsOid]).2.unapplied_settings = false := by
  have h := c7_snmp_set_apply ⟨some "t", none, none, none, none, false⟩ "1.2" 200
    [applySettingsOid]
  have h' := c7_snmp_set_apply ⟨some "t", none, none, none, none, true⟩ "1.2" 200
    [applySettingsOid]
  refine ⟨?_, ?_, ?_, ?_⟩
  · exact (c7_snmp_set_apply ⟨some "t", none, none, none, none, false⟩ "1.2" 304
      ["1.2"]).1 (by decide)
  · exact (c7_snmp_set_apply ⟨some "t", none, none, none, none, false⟩ "1.2" 200
      ["1.2"]).2.1 (by decide) (by decide) (by decide)
  · exact h.2.2.1 (by decide)
  · exact (h'.2.2.2 (by decide) (by decide) (by decide)).2

/-- C10: `login` is atomic on failure — when the response body is empty, or
when the base64+JSON envelope cannot be decoded, the raised `LoginFailed`
leaves every session field (credential, username, password, modelname,
family) exactly as before the call; in general a failed login leaves the
state, and hence `is_loggedin`, unchanged. -/
theorem c10_login_atomic (s : HubState) (u p respContent respText : String)
    (decode : String → Option (List (String × String))) :
    (respContent = "" →
      login s u p respContent respText decode = (false, s)) ∧
    (decode respContent = none →
      login s u p respContent respText decode = (false, s)) ∧
    ((login s u p respContent respText decode).1 = false →
      (login s u p respContent respText decode).2 = s ∧
      is_loggedin (login s u p respContent respText decode).2 = is_loggedin s) := by
  refine ⟨fun he => by simp [login, he], fun hd => ?_, fun hf => ?_⟩
  · unfold login
    by_cases he : respContent = "" <;> simp [he, hd]
  · unfold login at hf ⊢
    by_cases he : respContent = ""
    · simp [he]
    · simp [he] at hf ⊢
      cases hd : decode respContent with
      | none => simp [hd]
      | some attrs => simp [he, hd] at hf

/-- C10 witness: a session whose login response cannot be decoded is left
untouched. -/
theorem c10_login_atomic_witness :
    login ⟨none, none, none, none, none, false⟩ "admin" "pw" "garbage" "txt"
        (fun _ => none) =
      (false, ⟨none, none, none, none, none, false⟩) := by
  exact (c10_login_atomic ⟨none, none, none, none, none, false⟩ "admin" "pw"
    "garbage" "txt" (fun _ => none)).2.1 rfl

theorem pySplit_sep_append {sep : Char} {l : List Char} (r : List Char)
    (h : sep ∉ l) :
    pySplit sep (l ++ sep :: r) = l :: pySplit sep r := by
  induction l with
  | nil => simp [pySplit]
  | cons c cs ih =>
      have hc : ¬ (c = sep) := fun hc => h (hc ▸ List.mem_cons_self c cs)
      have hcs : sep ∉ cs := fun hm => h (List.mem_cons_of_mem c hm)
      show pySplit sep (c :: (cs ++ sep :: r)) = (c :: cs) :: pySplit sep r
      simp only [pySplit, if_neg hc, ih hcs]

theorem pySplit_eq_single {sep : Char} {l : List Char} (h : sep ∉ l) :
    pySplit sep l = [l] := by
  induction l with
  | nil => rfl
  | cons c cs ih =>
      have hc : ¬ (c = sep) := fun hc => h (hc ▸ List.mem_cons_self c cs)
      have hcs : sep ∉ cs := fun hm => h (List.mem_cons_of_mem c hm)
      simp only [pySplit, if_neg hc, ih hcs]

set_option maxRecDepth 10000 in
theorem pyIntDec_decDigits : ∀ n, n < 256 → pyIntDec (decDigits n) = some n := by
  decide

set_option maxRecDepth 10000 in
theorem pyIntHex_padHex : ∀ n, n < 256 →
    pyIntHex (padLeftZero2 (hexDigitsLower n)) = some n := by
  decide

set_option maxRecDepth 10000 in
theorem padHex_length : ∀ n, n < 256 →
    (padLeftZero2 (hexDigitsLower n)).length = 2 := by
  decide

set_option maxRecDepth 10000 in
theorem dot_not_mem_decDigits : ∀ n, n < 256 → '.' ∉ decDigits n := by
  decide

theorem extract_ip_four_octets (x1 x2 x3 x4 : List Char) (n1 n2 n3 n4 : Nat)
    (hl1 : x1.length = 2) (hl2 : x2.length = 2)
    (hl3 : x3.length = 2) (hl4 : x4.length = 2)
    (hp1 : pyIntHex x1 = some n1) (hp2 : pyIntHex x2 = some n2)
    (hp3 : pyIntHex x3 = some n3) (hp4 : pyIntHex x4 = some n4)
    (zin : Bool) :
    extract_ip (String.mk ('$' :: (x1 ++ (x2 ++ (x3 ++ x4))))) zin =
      (if String.mk (decDigits n1 ++ '.' :: decDigits n2 ++
            '.' :: decDigits n3 ++ '.' :: decDigits n4) = "0.0.0.0" ∧ zin then
        some none
      else some (some (String.mk (decDigits n1 ++ '.' :: decDigits n2 ++
        '.' :: decDigits n3 ++ '.' :: decDigits n4)))) := by
  have hcs : (String.mk ('$' :: (x1 ++ (x2 ++ (x3 ++ x4))))).toList =
      '$' :: (x1 ++ (x2 ++ (x3 ++ x4))) := rfl
  have e1 : (('$' :: (x1 ++ (x2 ++ (x3 ++ x4)))).drop 1).take 2 = x1 := by
    rw [List.drop_succ_cons, List.drop_zero, List.take_left' hl1]
  have d2 : ('$' :: (x1 ++ (x2 ++ (x3 ++ x4)))).drop 3 = x2 ++ (x3 ++ x4) := by
    rw [List.drop_succ_cons, ← hl1, List.drop_left]
  have e2 : (('$' :: (x1 ++ (x2 ++ (x3 ++ x4)))).drop 3).take 2 = x2 := by
    rw [d2, List.take_left' hl2]
  have d4 : ('$' :: (x1 ++ (x2 ++ (x3 ++ x4)))).drop 5 = x3 ++ x4 := by
    have h5 : (5 : Nat) = 3 + 2 := rfl
    rw [h5, ← List.drop_drop, d2, List.drop_left' hl2]
  have e3 : (('$' :: (x1 ++ (x2 ++ (x3 ++ x4)))).drop 5).take 2 = x3 := by
    rw [d4, List.take_left' hl3]
  have d6 : ('$' :: (x1 ++ (x2 ++ (x3 ++ x4)))).drop 7 = x4 := by
    have h7 : (7 : Nat) = 5 + 2 := rfl
    rw [h7, ← List.drop_drop, d4, List.drop_left' hl3]
  have e4 : (('$' :: (x1 ++ (x2 ++ (x3 ++ x4)))).drop 7).take 2 = x4 := by
    rw [d6, ← hl4]
    exact List.take_length x4
  simp only [extract_ip, hcs, e1, e2, e3, e4, hp1, hp2, hp3, hp4]

/-- C5 counterexample: with default absent-handling, the valid address
`"0.0.0.0"` does not round-trip — the decoder maps its encoding back to the
absent marker, not to the address itself. -/
theorem c5_counterexample :
    ValidIPv4 "0.0.0.0" ∧
    ipv4_to_dollar "0.0.0.0" = some "$00000000" ∧
    extract_ip "$00000000" true = some none ∧
    extract_ip "$00000000" true ≠ some (some "0.0.0.0") := by
  exact ⟨⟨0, 0, 0, 0, by decide⟩, by decide, by decide, by decide⟩

/-- C5 (amended): for every valid dotted-quad IPv4 address other than
`"0.0.0.0"`, decoding the encoded wire form with default absent-handling
yields the original address; the encoding of `"0.0.0.0"` decodes to the
absent marker instead. -/
theorem c5_roundtrip (a : String) (hv : ValidIPv4 a) (hz : a ≠ "0.0.0.0") :
    ∃ w, ipv4_to_dollar a = some w ∧ extract_ip w true = some (some a) := by
  obtain ⟨n1, n2, n3, n4, hn1, hn2, hn3, hn4, ha⟩ := hv
  have ha' : a.toList = decDigits n1 ++ '.' :: (decDigits n2 ++
      '.' :: (decDigits n3 ++ '.' :: decDigits n4)) := by
    rw [ha]
    simp only [List.cons_append, List.append_assoc]
  have hsplit : pySplit '.' a.toList =
      [decDigits n1, decDigits n2, decDigits n3, decDigits n4] := by
    rw [ha', pySplit_sep_append _ (dot_not_mem_decDigits n1 hn1),
        pySplit_sep_append _ (dot_not_mem_decDigits n2 hn2),
        pySplit_sep_append _ (dot_not_mem_decDigits n3 hn3),
        pySplit_eq_single (dot_not_mem_decDigits n4 hn4)]
  have ht : ∀ n, n < 256 → tohex (decDigits n) =
      some (padLeftZero2 (hexDigitsLower n)) := by
    intro n hn
    simp [tohex, pyIntDec_decDigits n hn]
  have hmap : mapTohex (pySplit '.' a.toList) =
      some [padLeftZero2 (hexDigitsLower n1), padLeftZero2 (hexDigitsLower n2),
        padLeftZero2 (hexDigitsLower n3), padLeftZero2 (hexDigitsLower n4)] := by
    rw [hsplit]
    simp [mapTohex, ht n1 hn1, ht n2 hn2, ht n3 hn3, ht n4 hn4]
  refine ⟨String.mk ('$' :: (padLeftZero2 (hexDigitsLower n1) ++
    (padLeftZero2 (hexDigitsLower n2) ++ (padLeftZero2 (hexDigitsLower n3) ++
      padLeftZero2 (hexDigitsLower n4))))), ?_, ?_⟩
  · unfold ipv4_to_dollar
    rw [hmap]
    simp
  · rw [extract_ip_four_octets _ _ _ _ n1 n2 n3 n4
      (padHex_length n1 hn1) (padHex_length n2 hn2)
      (padHex_length n3 hn3) (padHex_length n4 hn4)
      (pyIntHex_padHex n1 hn1) (pyIntHex_padHex n2 hn2)
      (pyIntHex_padHex n3 hn3) (pyIntHex_padHex n4 hn4)]
    rw [← ha]
    have hmk : String.mk a.toList = a := rfl
    rw [hmk, if_neg]
    intro hcon
    exact hz hcon.1

/-- C5 witness: the documented example address round-trips. -/
theorem c5_roundtrip_witness :
    ∃ w, ipv4_to_dollar "192.168.4.100" = some w ∧
      extract_ip w true = some (some "192.168.4.100") :=
  c5_roundtrip "192.168.4.100" ⟨192, 168, 4, 100, by decide⟩ (by decide)

theorem pySplit_ne_nil (sep : Char) (cs : List Char) : pySplit sep cs ≠ [] := by
  induction cs with
  | nil => simp [pySplit]
  | cons c cs ih =>
    simp only [pySplit]
    by_cases h : c = sep
    · simp [h]
    · rw [if_neg h]
      cases hp : pySplit sep cs <;> simp

theorem sep_not_mem_pySplit (sep : Char) (cs : List Char) :
    ∀ p ∈ pySplit sep cs, sep ∉ p := by
  induction cs with
  | nil =>
    intro p hp
    simp [pySplit] at hp
    subst hp
    simp
  | cons c cs ih =>
    intro p hp
    simp only [pySplit] at hp
    by_cases h : c = sep
    · rw [if_pos h] at hp
      rcases List.mem_cons.mp hp with h1 | h2
      · subst h1; simp
      · exact ih p h2
    · rw [if_neg h] at hp
      cases hsp : pySplit sep cs with
      | nil => exact absurd hsp (pySplit_ne_nil sep cs)
      | cons g gs =>
        rw [hsp] at hp
        rcases List.mem_cons.mp hp with h1 | h2
        · subst h1
          intro hmem
          rcases List.mem_cons.mp hmem with h3 | h4
          · exact h h3.symm
          · exact ih g (hsp ▸ List.mem_cons_self g gs) h4
        · exact ih p (hsp ▸ List.mem_cons_of_mem g h2)

theorem pySplit_pyJoin (sep : Char) :
    ∀ parts : List (List Char), parts ≠ [] → (∀ p ∈ parts, sep ∉ p) →
      pySplit sep (pyJoin sep parts) = parts
  | [], h, _ => absurd rfl h
  | [p], _, hs => by
      show pySplit sep p = [p]
      exact pySplit_eq_single (hs p (List.mem_singleton.mpr rfl))
  | p :: q :: rest, _, hs => by
      show pySplit sep (p ++ sep :: pyJoin sep (q :: rest)) = p :: (q :: rest)
      rw [pySplit_sep_append _ (hs p (List.mem_cons_self p (q :: rest)))]
      rw [pySplit_pyJoin sep (q :: rest) (by simp)
        (fun x hx => hs x (List.mem_cons_of_mem p hx))]

theorem lookup_eq_none_of_keys_ne (k : String) :
    ∀ m : List (String × String), (∀ e ∈ m, e.1 ≠ k) → m.lookup k = none := by
  intro m
  induction m with
  | nil => intro _; rfl
  | cons e rest ih =>
    obtain ⟨a, b⟩ := e
    intro h
    have ha : k ≠ a := fun hk => (h (a, b) (List.mem_cons_self _ _)) hk.symm
    have hb : (k == a) = false := beq_eq_false_iff_ne.mpr ha
    simp only [List.lookup, hb]
    exact ih (fun e he => h e (List.mem_cons_of_mem _ he))

theorem lookup_eraseP_ne (k : String) (hk : k ≠ "1") :
    ∀ m : List (String × String),
      (m.eraseP (fun e => e.1 = "1")).lookup k = m.lookup k := by
  intro m
  induction m with
  | nil => rfl
  | cons e rest ih =>
    obtain ⟨a, b⟩ := e
    by_cases h1 : a = "1"
    · rw [List.eraseP_cons_of_pos (by simp [h1])]
      have ha : k ≠ a := h1 ▸ hk
      have hb : (k == a) = false := beq_eq_false_iff_ne.mpr ha
      simp only [List.lookup, hb]
    · rw [List.eraseP_cons_of_neg (by simp [h1])]
      by_cases hka : k = a
      · subst hka
        simp only [List.lookup, beq_self_eq_true]
      · have hb : (k == a) = false := beq_eq_false_iff_ne.mpr hka
        simp only [List.lookup, hb]
        exact ih

theorem lookup_one_eraseP :
    ∀ m : List (String × String), (m.map Prod.fst).Nodup →
      (m.eraseP (fun e => e.1 = "1")).lookup "1" = none := by
  intro m
  induction m with
  | nil => intro _; rfl
  | cons e rest ih =>
    obtain ⟨a, b⟩ := e
    intro hnd
    simp only [List.map_cons, List.nodup_cons] at hnd
    by_cases h1 : a = "1"
    · rw [List.eraseP_cons_of_pos (by simp [h1])]
      subst h1
      exact lookup_eq_none_of_keys_ne "1" rest
        (fun e he => fun hke => hnd.1 (hke ▸ List.mem_map_of_mem Prod.fst he))
    · rw [List.eraseP_cons_of_neg (by simp [h1])]
      have hb : (("1" : String) == a) = false :=
        beq_eq_false_iff_ne.mpr (fun h => h1 h.symm)
      simp only [List.lookup, hb]
      exact ih hnd.2

/-- C4: the walk response is pre-filtered by dropping exactly the lines
whole-line equal to the spurious error string (a line merely containing it
survives), and rejoining the kept lines reproduces exactly the kept lines;
after parsing, the top-level key `"1"` is removed when and only when its
value is the literal `"Finish"`, and every other key's entry is returned
unchanged. -/
theorem c4_walk_filtering (raw : String) (result : List (String × String)) :
    (∀ l, l ∈ walkFilterLines raw.toList ↔
      (l ∈ pySplit '\n' raw.toList ∧ l ≠ oidFormatErrorLine.toList)) ∧
    (walkFilterLines raw.toList ≠ [] →
      pySplit '\n' (walkFilterText raw).toList = walkFilterLines raw.toList) ∧
    ((result.map Prod.fst).Nodup → result.lookup "1" = some "Finish" →
      (stripFinishSentinel result).lookup "1" = none) ∧
    (result.lookup "1" ≠ some "Finish" → stripFinishSentinel result = result) ∧
    (∀ k, k ≠ "1" → (stripFinishSentinel result).lookup k = result.lookup k) := by
  refine ⟨?_, ?_, ?_, ?_, ?_⟩
  · intro l
    simp [walkFilterLines, List.mem_filter]
  · intro hne
    have hmem : ∀ p ∈ walkFilterLines raw.toList, '\n' ∉ p :=
      fun p hp => sep_not_mem_pySplit '\n' raw.toList p (List.mem_of_mem_filter hp)
    exact pySplit_pyJoin '\n' (walkFilterLines raw.toList) hne hmem
  · intro hnd hl
    unfold stripFinishSentinel
    rw [if_pos hl]
    exact lookup_one_eraseP result hnd
  · intro hl
    unfold stripFinishSentinel
    rw [if_neg hl]
  · intro k hk
    unfold stripFinishSentinel
    by_cases hl : result.lookup "1" = some "Finish"
    · rw [if_pos hl]
      exact lookup_eraseP_ne k hk result
    · rw [if_neg hl]

/-- C4 witness: a concrete polluted response whose error line is dropped
and whose parsed sentinel entry is removed. -/
theorem c4_walk_filtering_witness :
    pySplit '\n' (walkFilterText "A\nError in OID formatting!\nB").toList =
      walkFilterLines "A\nError in OID formatting!\nB".toList ∧
    (stripFinishSentinel [("1.2", "x"), ("1", "Finish")]).lookup "1" = none := by
  have h := c4_walk_filtering "A\nError in OID formatting!\nB"
    [("1.2", "x"), ("1", "Finish")]
  exact ⟨h.2.1 (by decide), h.2.2.1 (by decide) (by decide)⟩

theorem mkDatetime_valid {y mo d h mi s : Nat} {dt : PyDatetime}
    (hmk : mkDatetime y mo d h mi s = some dt) : ValidDate dt := by
  unfold mkDatetime at hmk
  split at hmk
  · injection hmk with h'
    subst h'
    unfold ValidDate
    assumption
  · exact absurd hmk (by simp)

/-- C8: `extract_date` decodes `"$07e2030e10071100"` to 2018-03-14T16:07:17;
it returns the absent marker for `None`, the empty string and the all-zero
pattern; it raises (rather than producing a date) on the in-range hex input
`"$07e20d2010071100"` whose month field is 13; and any date it does return
satisfies the calendar-validity invariant. -/
theorem c8_extract_date_fields :
    extract_date (some "$07e2030e10071100") =
      some (some ⟨2018, 3, 14, 16, 7, 17⟩) ∧
    extract_date none = some none ∧
    extract_date (some "") = some none ∧
    extract_date (some "$0000000000000000") = some none ∧
    extract_date (some "$07e20d2010071100") = none ∧
    ∀ input dt, extract_date input = some (some dt) → ValidDate dt := by
  refine ⟨by decide, by decide, by decide, by decide, by decide, ?_⟩
  intro input dt h
  match input with
  | none => simp [extract_date] at h
  | some s =>
    simp only [extract_date] at h
    split at h
    · simp at h
    · split at h
      · rw [Option.map_eq_some'] at h
        obtain ⟨a, ha, haa⟩ := h
        injection haa with haa
        subst haa
        exact mkDatetime_valid ha
      · simp at h

/-- C8 witness: the date decoded from the documented example satisfies the
calendar-validity invariant. -/
theorem c8_extract_date_fields_witness :
    ValidDate ⟨2018, 3, 14, 16, 7, 17⟩ :=
  c8_extract_date_fields.2.2.2.2.2 (some "$07e2030e10071100")
    ⟨2018, 3, 14, 16, 7, 17⟩ (by decide)

/-- C9 counterexample: `extract_mac` does not lowercase — on the wire value
`"$AABBCCDDEEFF"` (a `"$"` followed by 12 hex digits) it returns the groups
with their original case, not the lowercase form the claim requires. -/
theorem c9_counterexample :
    extract_mac "$AABBCCDDEEFF" = "AA:BB:CC:DD:EE:FF" ∧
    extract_mac "$AABBCCDDEEFF" ≠ "aa:bb:cc:dd:ee:ff" := by
  decide

/-- C9 (amended): for every wire value `"$"` followed by 12 characters,
`extract_mac` returns the six 2-character groups joined by colons with the
case of the input digits preserved; in particular
`extract_mac "$787b8a6413f5" = "78:7b:8a:64:13:f5"` for lowercase input. -/
theorem c9_extract_mac_groups :
    extract_mac "$787b8a6413f5" = "78:7b:8a:64:13:f5" ∧
    ∀ a1 a2 a3 a4 a5 a6 a7 a8 a9 a10 a11 a12 : Char,
      extract_mac (String.mk
          ['$', a1, a2, a3, a4, a5, a6, a7, a8, a9, a10, a11, a12]) =
        String.mk [a1, a2, ':', a3, a4, ':', a5, a6, ':', a7, a8, ':',
          a9, a10, ':', a11, a12] := by
  exact ⟨by decide, fun a1 a2 a3 a4 a5 a6 a7 a8 a9 a10 a11 a12 => rfl⟩

theorem pyStrLt_asymm : ∀ x y : List Char, pyStrLt x y = true → pyStrLt y x = false
  | [], [] => by simp [pyStrLt]
  | [], _ :: _ => by simp [pyStrLt]
  | _ :: _, [] => by simp [pyStrLt]
  | a :: as, b :: bs => by
      simp only [pyStrLt]
      by_cases hab : a.toNat < b.toNat
      · intro _
        rw [if_neg (Nat.lt_asymm hab), if_pos hab]
      · rw [if_neg hab]
        by_cases hba : b.toNat < a.toNat
        · rw [if_pos hba]
          intro h
          exact absurd h (by simp)
        · rw [if_neg hba, if_neg hba, if_neg hab]
          exact pyStrLt_asymm as bs

theorem entryLe_total : ∀ a b : TableEntry, entryLe a b = true ∨ entryLe b a = true := by
  intro a b
  rcases Nat.lt_trichotomy a.1 b.1 with h | h | h
  · left
    simp only [entryLe, Bool.or_eq_true]
    left
    exact decide_eq_true h
  · cases hs : pyStrLt b.2.1.toList a.2.1.toList with
    | false =>
      left
      simp only [entryLe, Bool.or_eq_true, Bool.and_eq_true]
      right
      refine ⟨by simp [h], ?_⟩
      rw [hs]
      rfl
    | true =>
      right
      have has := pyStrLt_asymm _ _ hs
      simp only [entryLe, Bool.or_eq_true, Bool.and_eq_true]
      right
      refine ⟨by simp [h], ?_⟩
      rw [has]
      rfl
  · right
    simp only [entryLe, Bool.or_eq_true]
    left
    exact decide_eq_true h

theorem chain_insertSorted (le : α → α → Bool)
    (htot : ∀ a b, le a b = true ∨ le b a = true) (x : α) :
    ∀ l, List.Chain' (fun a b => le a b = true) l →
      List.Chain' (fun a b => le a b = true) (insertSorted le x l) := by
  intro l
  induction l with
  | nil => intro _; simp [insertSorted]
  | cons y ys ih =>
    intro hch
    rw [List.chain'_cons'] at hch
    simp only [insertSorted]
    by_cases hxy : le x y = true
    · rw [if_pos hxy]
      exact List.chain'_cons'.mpr ⟨by simp [hxy], List.chain'_cons'.mpr hch⟩
    · rw [if_neg hxy]
      have hyx : le y x = true := (htot x y).resolve_left hxy
      refine List.chain'_cons'.mpr ⟨?_, ih hch.2⟩
      intro z hz
      cases ys with
      | nil =>
        simp [insertSorted] at hz
        subst hz
        exact hyx
      | cons w ws =>
        simp only [insertSorted] at hz
        by_cases hxw : le x w = true
        · rw [if_pos hxw] at hz
          simp at hz
          subst hz
          exact hyx
        · rw [if_neg hxw] at hz
          simp at hz
          subst hz
          exact hch.1 w rfl

theorem chain_sortStable (le : α → α → Bool)
    (htot : ∀ a b, le a b = true ∨ le b a = true) :
    ∀ l : List α, List.Chain' (fun a b => le a b = true) (sortStable le l) := by
  intro l
  induction l with
  | nil => simp [sortStable]
  | cons x xs ih => exact chain_insertSorted le htot x _ ih

theorem groupRuns_cons_nil (key : α → Nat) (x : α) (xs : List α)
    (h : groupRuns key xs = []) :
    groupRuns key (x :: xs) = [(key x, [x])] := by
  simp only [groupRuns, h]

theorem groupRuns_cons_cons (key : α → Nat) (x : α) (xs : List α)
    (k : Nat) (g : List α) (rest : List (Nat × List α))
    (h : groupRuns key xs = (k, g) :: rest) :
    groupRuns key (x :: xs) =
      if key x = k then (k, x :: g) :: rest
      else (key x, [x]) :: (k, g) :: rest := by
  simp only [groupRuns, h]

theorem groupRuns_cons_eq (key : α → Nat) (x : α) (xs : List α) :
    ∃ g rest, groupRuns key (x :: xs) = (key x, g) :: rest ∧ g ≠ [] := by
  cases hg : groupRuns key xs with
  | nil => exact ⟨[x], [], groupRuns_cons_nil key x xs hg, by simp⟩
  | cons p ps =>
    obtain ⟨k, g⟩ := p
    rw [groupRuns_cons_cons key x xs k g ps hg]
    by_cases hk : key x = k
    · subst hk
      exact ⟨x :: g, ps, by simp, by simp⟩
    · exact ⟨[x], (k, g) :: ps, by simp [hk], by simp⟩

theorem groupRuns_chain (key : α → Nat) :
    ∀ l : List α, List.Chain' (fun a b => key a ≤ key b) l →
      List.Chain' (fun g1 g2 => g1.1 < g2.1) (groupRuns key l) := by
  intro l
  induction l with
  | nil => simp [groupRuns]
  | cons x xs ih =>
    intro hch
    rw [List.chain'_cons'] at hch
    have ihg := ih hch.2
    cases xs with
    | nil => simp [groupRuns]
    | cons y ys =>
      have hxy : key x ≤ key y := hch.1 y rfl
      obtain ⟨g, rest, hgr, _⟩ := groupRuns_cons_eq key y ys
      rw [groupRuns_cons_cons key x (y :: ys) (key y) g rest hgr]
      rw [hgr] at ihg
      by_cases hk : key x = key y
      · rw [if_pos hk]
        rw [List.chain'_cons'] at ihg ⊢
        exact ⟨fun z hz => ihg.1 z hz, ihg.2⟩
      · rw [if_neg hk]
        exact List.chain'_cons.mpr ⟨Nat.lt_of_le_of_ne hxy hk, ihg⟩

theorem groupRuns_groups_ne_nil (key : α → Nat) :
    ∀ l : List α, ∀ g ∈ groupRuns key l, g.2 ≠ [] := by
  intro l
  induction l with
  | nil => simp [groupRuns]
  | cons x xs ih =>
    intro g hg
    cases hgr : groupRuns key xs with
    | nil =>
      rw [groupRuns_cons_nil key x xs hgr] at hg
      simp at hg
      subst hg
      simp
    | cons p ps =>
      obtain ⟨k, q⟩ := p
      rw [groupRuns_cons_cons key x xs k q ps hgr] at hg
      by_cases hk : key x = k
      · rw [if_pos hk] at hg
        rcases List.mem_cons.mp hg with h1 | h2
        · subst h1; simp
        · exact ih g (hgr ▸ List.mem_cons_of_mem _ h2)
      · rw [if_neg hk] at hg
        rcases List.mem_cons.mp hg with h1 | h2
        · subst h1; simp
        · exact ih g (hgr ▸ h2)

theorem dictInsert_ne_nil (m : List (String × String)) (k v : String) :
    dictInsert m k v ≠ [] := by
  unfold dictInsert
  by_cases h : (m.lookup k).isSome
  · rw [if_pos h]
    cases m with
    | nil => simp [List.lookup] at h
    | cons e rest => simp
  · rw [if_neg h]
    simp

theorem foldl_dictInsert_ne_nil (f : TableEntry → String) :
    ∀ (g : List TableEntry) (m : List (String × String)),
      m ≠ [] ∨ g ≠ [] →
      g.foldl (fun m e => dictInsert m (f e) e.2.2.2) m ≠ [] := by
  intro g
  induction g with
  | nil =>
    intro m h
    exact h.resolve_right (by simp)
  | cons e g' ih =>
    intro m _
    exact ih (dictInsert m (f e) e.2.2.2) (Or.inl (dictInsert_ne_nil _ _ _))

theorem buildCells_ne_nil (columns : List (String × String))
    (g : List TableEntry) (hg : g ≠ []) : buildCells columns g ≠ [] := by
  unfold buildCells
  exact foldl_dictInsert_ne_nil _ g [] (Or.inr hg)

/-- C6: the assembler keeps only entries whose column segment occurs in the
column spec, groups survivors by integer row index, emits a row exactly when
at least one of its columns survived (cells never empty), leaves columns
missing from a row absent (lookup yields `none`) rather than failing, and
outputs rows in ascending row-index order; in particular the documented
example yields exactly rows 1 then 2 with column `b` absent in row 2. -/
theorem c6_table_assembly :
    (snmp_table_rows "1.2.3" [("2", "a"), ("3", "b")]
        [("1.2.3.2.1", "v21"), ("1.2.3.3.1", "v31"),
         ("1.2.3.2.2", "v22"), ("1.2.3.9.5", "x")] =
      some [(1, [("a", "v21"), ("b", "v31")]), (2, [("a", "v22")])]) ∧
    (([("a", "v21"), ("b", "v31")] : List (String × String)).lookup "b"
      = some "v31") ∧
    (([("a", "v22")] : List (String × String)).lookup "b" = none) ∧
    ∀ (top : String) (columns walk : List (String × String))
      (rows : List (Nat × List (String × String))),
      snmp_table_rows top columns walk = some rows →
      List.Chain' (fun r1 r2 => r1.1 < r2.1) rows ∧ ∀ r ∈ rows, r.2 ≠ [] := by
  refine ⟨by decide, by decide, by decide, ?_⟩
  intro top columns walk rows h
  unfold snmp_table_rows at h
  split at h
  · exact absurd h (by simp)
  · rename_i annotated hann
    injection h with h
    subst h
    constructor
    · rw [List.chain'_map]
      refine groupRuns_chain _ _ ?_
      have hch := chain_sortStable entryLe entryLe_total annotated
      refine hch.imp (fun a b hab => ?_)
      rcases Bool.or_eq_true_iff.mp hab with h1 | h2
      · exact Nat.le_of_lt (by simpa using h1)
      · exact Nat.le_of_eq (by
          have := (Bool.and_eq_true_iff.mp h2).1
          simpa using this)
    · intro r hr
      rw [List.mem_map] at hr
      obtain ⟨g, hgmem, hgr⟩ := hr
      subst hgr
      exact buildCells_ne_nil columns g.2
        (groupRuns_groups_ne_nil _ _ g hgmem)

/-- C6 witness: the general ordering guarantee applied to the concrete
example. -/
theorem c6_table_assembly_witness :
    List.Chain' (fun r1 r2 => r1.1 < r2.1)
      [((1 : Nat), [("a", "v21"), ("b", "v31")]), (2, [("a", "v22")])] :=
  (c6_table_assembly.2.2.2 "1.2.3" [("2", "a"), ("3", "b")]
    [("1.2.3.2.1", "v21"), ("1.2.3.3.1", "v31"),
     ("1.2.3.2.2", "v22"), ("1.2.3.9.5", "x")]
    [(1, [("a", "v21"), ("b", "v31")]), (2, [("a", "v22")])] (by decide)).1

end VirginMedia
